import Mathlib

/-!
# Verification of the DeepJ dataset pipeline (`src/dataset.py`)

Shallow embedding of the event-sequence windowing and augmentation pipeline:
`progress_tensor`, `validation_split`, `sampler`, `batcher`, `random_subseq`
and `augment` from `src/dataset.py`.  Event sequences are lists of natural
number codes (the parser contract guarantees non-negative integer codes);
NumPy / PyTorch tensors are modelled as (nested) lists; the shared random
source is modelled by passing the drawn value explicitly together with a
predicate describing which draws `random.randint` can produce.
-/

set_option autoImplicit false

namespace DeepJ

/-- Modelled from the spec: the configuration constants (`constants.py` is not
under `src/`).  The spec fixes a note count, a time-quantization bucket count,
and two boundary offsets making the three code ranges NoteOn, NoteOff,
TimeShift contiguous and disjoint, in that order (`dataset.py` relies on this
order: `evt < NOTE_OFF_OFFSET + NUM_NOTES` separates notes from time shifts
and `evt < TIME_OFFSET` tests pitch-bearing). -/
structure Config where
  NUM_NOTES : ℕ
  TIME_QUANTIZATION : ℕ

/-- Modelled from the spec: NoteOn codes form the first range. -/
def Config.NOTE_ON_OFFSET (_ : Config) : ℕ := 0

/-- Modelled from the spec: NoteOff codes follow the NoteOn range. -/
def Config.NOTE_OFF_OFFSET (cfg : Config) : ℕ := cfg.NOTE_ON_OFFSET + cfg.NUM_NOTES

/-- Modelled from the spec: TimeShift codes follow the NoteOff range. -/
def Config.TIME_OFFSET (cfg : Config) : ℕ := cfg.NOTE_OFF_OFFSET + cfg.NUM_NOTES

/-! ## Progress Encoder (`progress_tensor`, dataset.py lines 44-56) -/

/-- `np.zeros((n, m))`, with 0/1 entries kept as naturals. -/
def npZeros (n m : ℕ) : List (List ℕ) :=
  List.replicate n (List.replicate m 0)

/-- NumPy slice assignment `mat[lo:hi, col] = 1` on a row-major matrix
(for non-negative `lo ≤ hi`; out-of-range parts of the slice are clamped,
exactly as NumPy clamps basic slices). -/
def sliceAssign (mat : List (List ℕ)) (lo hi col : ℕ) : List (List ℕ) :=
  mat.mapIdx (fun i row => if lo ≤ i ∧ i < hi then row.set col 1 else row)

/-- `progress_tensor` (dataset.py lines 44-56) as a function of the sequence
length `N` and the configured `CATEGORY_LEVEL` `C`.  The final statement
models `progress[-(N % C):, C-1] = 1`: for `N % C > 0` the Python slice
`[-(N % C):]` denotes the last `N % C` rows, while for `N % C = 0` it is
`[-0:] = [0:]`, the whole array. -/
def progress_tensor (N C : ℕ) : List (List ℕ) :=
  let step := N / C
  let progress := npZeros N C
  let progress := (List.range C).foldl
    (fun p c => sliceAssign p (c * step) (c * step + step) c) progress
  let remStart := if N % C = 0 then 0 else N - N % C
  sliceAssign progress remStart N (C - 1)

/-! ## Windowed Sampler (`random_subseq`, dataset.py lines 129-168)

The source generator is a while loop over an output slot counter `i`, a
source cursor `current` and the set `note_ons` of currently sounding notes.
Every iteration increments `current`; `i` is incremented exactly when an
event is yielded, so the loop is a well-founded recursion on
`(sequence.length - current) + (seq_len - i)`. -/

/-- The body of `generator()` inside `random_subseq` (dataset.py lines
133-164), emitting the remaining window events from loop state
`(i, current, note_ons)`. -/
def genLoop (cfg : Config) (sequence : List ℕ) (seq_len : ℕ) :
    ℕ → ℕ → Finset ℕ → List ℕ
  | i, current, note_ons =>
    if i < seq_len then
      if sequence.length ≤ current then
        -- Ran out of events due to skipping: pad with max silence
        (cfg.TIME_OFFSET + cfg.TIME_QUANTIZATION - 1) ::
          genLoop cfg sequence seq_len (i + 1) (current + 1) note_ons
      else
        let evt := sequence.getD current 0
        if evt < cfg.NOTE_OFF_OFFSET + cfg.NUM_NOTES then
          if cfg.NOTE_OFF_OFFSET ≤ evt then
            -- This is a note off
            let note := evt - cfg.NOTE_OFF_OFFSET
            if note ∈ note_ons then
              evt :: genLoop cfg sequence seq_len (i + 1) (current + 1)
                (note_ons.erase note)
            else
              -- Ignore note offs before note on
              genLoop cfg sequence seq_len i (current + 1) note_ons
          else
            -- This is a note on
            evt :: genLoop cfg sequence seq_len (i + 1) (current + 1)
              (insert (evt - cfg.NOTE_ON_OFFSET) note_ons)
        else
          evt :: genLoop cfg sequence seq_len (i + 1) (current + 1) note_ons
    else []
termination_by i current _ => (sequence.length - current) + (seq_len - i)
decreasing_by all_goals omega

/-- Lower bound of the `random.randint` call in `random_subseq`. -/
def randint_lo : ℤ := 0

/-- Upper bound of the `random.randint` call in `random_subseq`:
`len(sequence) - 1 - seq_len` as a Python (signed) integer. -/
def random_subseq_hi (sequence : List ℕ) (seq_len : ℕ) : ℤ :=
  (sequence.length : ℤ) - 1 - (seq_len : ℤ)

/-- `random.randint(a, b)` can return exactly the integers of the inclusive
range `[a, b]`. -/
def randint_possible (a b k : ℤ) : Prop := a ≤ k ∧ k ≤ b

instance (a b k : ℤ) : Decidable (randint_possible a b k) := by
  unfold randint_possible; infer_instance

/-- `random.randint(a, b)` succeeds exactly when the range is non-empty
(Python raises `ValueError` on an empty range). -/
def randint_ok (a b : ℤ) : Prop := a ≤ b

instance (a b : ℤ) : Decidable (randint_ok a b) := by
  unfold randint_ok; infer_instance

/-- `random_subseq` succeeds iff its `randint` range is non-empty. -/
def random_subseq_ok (sequence : List ℕ) (seq_len : ℕ) : Prop :=
  randint_ok randint_lo (random_subseq_hi sequence seq_len)

instance (s : List ℕ) (L : ℕ) : Decidable (random_subseq_ok s L) := by
  unfold random_subseq_ok; infer_instance

/-- `random_subseq(sequence, seq_len)` (dataset.py lines 129-168) with the
drawn start `index` passed explicitly: returns the materialized generator
plus `(start_index, end_index)`. -/
def random_subseq (cfg : Config) (sequence : List ℕ) (seq_len index : ℕ) :
    List ℕ × ℕ × ℕ :=
  (genLoop cfg sequence seq_len 0 index ∅, index, index + seq_len)

/-- Iteration count of the `generator()` loop in `random_subseq`: the same
recursion as `genLoop`, counting one per loop iteration (including skipped
orphan NoteOffs, which consume an iteration but emit nothing). -/
def genLoopSteps (cfg : Config) (sequence : List ℕ) (seq_len : ℕ) :
    ℕ → ℕ → Finset ℕ → ℕ
  | i, current, note_ons =>
    if i < seq_len then
      if sequence.length ≤ current then
        genLoopSteps cfg sequence seq_len (i + 1) (current + 1) note_ons + 1
      else
        let evt := sequence.getD current 0
        if evt < cfg.NOTE_OFF_OFFSET + cfg.NUM_NOTES then
          if cfg.NOTE_OFF_OFFSET ≤ evt then
            let note := evt - cfg.NOTE_OFF_OFFSET
            if note ∈ note_ons then
              genLoopSteps cfg sequence seq_len (i + 1) (current + 1)
                (note_ons.erase note) + 1
            else
              genLoopSteps cfg sequence seq_len i (current + 1) note_ons + 1
          else
            genLoopSteps cfg sequence seq_len (i + 1) (current + 1)
              (insert (evt - cfg.NOTE_ON_OFFSET) note_ons) + 1
        else
          genLoopSteps cfg sequence seq_len (i + 1) (current + 1) note_ons + 1
    else 0
termination_by i current _ => (sequence.length - current) + (seq_len - i)
decreasing_by all_goals omega

/-! ## The no-orphan decoding property (spec section 8)

`noOrphanOffs w sounding` replays a window with the Event Codec: a NoteOn
opens its note, a NoteOff must find its note open (opened within the window
and not yet closed) and closes it, a TimeShift changes nothing. -/

/-- Decoder check: every NoteOff in the list finds its note in the sounding
set built from the NoteOns (minus NoteOffs) seen so far. -/
def noOrphanOffs (cfg : Config) : List ℕ → Finset ℕ → Bool
  | [], _ => true
  | evt :: rest, sounding =>
    if cfg.NOTE_OFF_OFFSET ≤ evt ∧ evt < cfg.NOTE_OFF_OFFSET + cfg.NUM_NOTES then
      decide ((evt - cfg.NOTE_OFF_OFFSET) ∈ sounding) &&
        noOrphanOffs cfg rest (sounding.erase (evt - cfg.NOTE_OFF_OFFSET))
    else if evt < cfg.NOTE_OFF_OFFSET then
      noOrphanOffs cfg rest (insert (evt - cfg.NOTE_ON_OFFSET) sounding)
    else
      noOrphanOffs cfg rest sounding

/-! ## Augmenter (`augment`, dataset.py lines 170-181) -/

/-- `augment(sequence)` (dataset.py lines 170-181) with the drawn
transposition `transpose` passed explicitly.  Events are signed here: the
source adds a possibly negative Python int to the event code with no
clamping. -/
def augment (cfg : Config) (transpose : ℤ) (sequence : List ℤ) : List ℤ :=
  if transpose = 0 then sequence
  else sequence.map
    (fun evt => if evt < (cfg.TIME_OFFSET : ℤ) then evt + transpose else evt)

/-! ## Corpus Splitter (`validation_split`, dataset.py lines 68-94) -/

/-- Python slice `r[:-k]` for a non-negative `k`: for `k = 0` it is
`r[:0] = []`, otherwise the first `len(r) - k` elements. -/
def sliceUptoNeg {α : Type} (r : List α) (k : ℕ) : List α :=
  r.take (if k = 0 then 0 else r.length - k)

/-- Python slice `r[-k:]` for a non-negative `k`: for `k = 0` it is
`r[0:]`, the whole list, otherwise the last `min k (len r)` elements. -/
def sliceFromNeg {α : Type} (r : List α) (k : ℕ) : List α :=
  r.drop (if k = 0 then 0 else r.length - k)

/-- `validation_split` (dataset.py lines 68-94) restricted to its index
computation: `r` is the shuffled list of indices (`random.shuffle` modelled
by quantifying over permutations of `range(len(seqs))`) and `split` the
validation fraction.  `num_val = int(math.ceil(len(r) * split))`; the two
`assert` statements are modelled by returning `none` (Python
`AssertionError`) when they fail, and the pair (train indices, validation
indices) otherwise. -/
def validation_split (r : List ℕ) (split : ℚ) : Option (List ℕ × List ℕ) :=
  let num_val : ℕ := (⌈(r.length : ℚ) * split⌉).toNat
  let train_indicies := sliceUptoNeg r num_val
  let val_indicies := sliceFromNeg r num_val
  if val_indicies.length = num_val ∧
      train_indicies.length = r.length - num_val then
    some (train_indicies, val_indicies)
  else none

/-! ## Sampler and Batch Assembler (`sampler`/`batcher`, dataset.py
lines 96-127) -/

/-- The processed corpus: `(seqs, style_tags, progresses)` as returned by
`process`.  Sequences are event-code lists, style tags one natural per
sequence, progress matrices one row per event. -/
structure Corpus where
  seqs : List (List ℕ)
  tags : List ℕ
  progresses : List (List (List ℕ))

/-- The inner `sample(seq_len)` closure of `sampler` (dataset.py lines
105-117), with the random draws passed explicitly: `seq_id` is the
`random.randint(0, len(seqs) - 1)` draw, `index` the `random_subseq` start
draw and `transpose` the `augment` draw.  Returns
`(gen_to_tensor(augment(subseq)), style_tags[seq_id:seq_id+1],
progress[start_index:end_index])` as (nested) lists. -/
def sample (cfg : Config) (data : Corpus) (seq_len seq_id index : ℕ)
    (transpose : ℤ) : List ℤ × List ℕ × List (List ℕ) :=
  let rs := random_subseq cfg (data.seqs.getD seq_id []) seq_len index
  let progress := data.progresses.getD seq_id []
  (augment cfg transpose (rs.1.map Int.ofNat),
   (data.tags.drop seq_id).take (seq_id + 1 - seq_id),
   (progress.drop rs.2.1).take (rs.2.2 - rs.2.1))

/-- Whether `sampler(data)` raises at construction (dataset.py lines
96-103): `raise 'Insufficient training data.'` when the split holds zero
sequences, otherwise the `sample` closure is returned. -/
def sampler (cfg : Config) (data : Corpus) :
    Except String (ℕ → ℕ → ℕ → ℤ → List ℤ × List ℕ × List (List ℕ)) :=
  if data.seqs.length = 0 then Except.error "Insufficient training data."
  else Except.ok (fun seq_len seq_id index transpose =>
    sample cfg data seq_len seq_id index transpose)

/-- The inner `batch` closure of `batcher` (dataset.py lines 120-127), with
one `(seq_id, index, transpose)` draw triple per sample: draws
`batch_size = draws.length` samples and stacks them with `torch.stack`
along a new leading axis (on nested lists, stacking a list of tensors is
the list itself). -/
def batch (cfg : Config) (data : Corpus) (seq_len : ℕ)
    (draws : List (ℕ × ℕ × ℤ)) :
    List (List ℤ) × List (List ℕ) × List (List (List ℕ)) :=
  let samples := draws.map
    (fun d => sample cfg data seq_len d.1 d.2.1 d.2.2)
  (samples.map (fun s => s.1),
   samples.map (fun s => s.2.1),
   samples.map (fun s => s.2.2))

/-- Shape of a rank-2 tensor modelled as a rectangular nested list. -/
def tensorShape2 {α : Type} (t : List (List α)) : List ℕ :=
  [t.length, (t.headD []).length]

/-- Shape of a rank-3 tensor modelled as a rectangular nested list. -/
def tensorShape3 {α : Type} (t : List (List (List α))) : List ℕ :=
  [t.length, (t.headD []).length, ((t.headD []).headD []).length]

/-! ## Helper lemmas about the window generator -/

theorem genLoop_length_fuel (cfg : Config) (sequence : List ℕ) (seq_len : ℕ) :
    ∀ fuel i current S, sequence.length - current + (seq_len - i) ≤ fuel →
      (genLoop cfg sequence seq_len i current S).length = seq_len - i := by
  intro fuel
  induction fuel with
  | zero =>
    intro i current S h
    have h1 : ¬ i < seq_len := by omega
    rw [genLoop]
    simp [h1]
    omega
  | succ n ih =>
    intro i current S h
    rw [genLoop]
    by_cases hi : i < seq_len
    · simp only [if_pos hi]
      by_cases hc : sequence.length ≤ current
      · simp only [if_pos hc, List.length_cons]
        rw [ih (i+1) (current+1) S (by omega)]
        omega
      · simp only [if_neg hc]
        by_cases he1 : sequence.getD current 0 < cfg.NOTE_OFF_OFFSET + cfg.NUM_NOTES
        · simp only [if_pos he1]
          by_cases he2 : cfg.NOTE_OFF_OFFSET ≤ sequence.getD current 0
          · simp only [if_pos he2]
            by_cases he3 : sequence.getD current 0 - cfg.NOTE_OFF_OFFSET ∈ S
            · simp only [if_pos he3, List.length_cons]
              rw [ih (i+1) (current+1) _ (by omega)]
              omega
            · simp only [if_neg he3]
              exact ih i (current+1) S (by omega)
          · simp only [if_neg he2, List.length_cons]
            rw [ih (i+1) (current+1) _ (by omega)]
            omega
        · simp only [if_neg he1, List.length_cons]
          rw [ih (i+1) (current+1) _ (by omega)]
          omega
    · simp [hi]
      omega

/-- The generator materializes exactly `seq_len - i` further events from loop
state `(i, current, note_ons)`. -/
theorem genLoop_length (cfg : Config) (sequence : List ℕ) (seq_len i current : ℕ)
    (S : Finset ℕ) :
    (genLoop cfg sequence seq_len i current S).length = seq_len - i :=
  genLoop_length_fuel cfg sequence seq_len _ i current S le_rfl

/-- Once the source cursor has run past the end of the sequence, the
generator emits only maximum-silence TimeShift padding, identically for
every sounding-note set. -/
theorem genLoop_exhausted (cfg : Config) (sequence : List ℕ) (seq_len : ℕ) :
    ∀ fuel i current S, seq_len - i ≤ fuel → sequence.length ≤ current →
      genLoop cfg sequence seq_len i current S =
        List.replicate (seq_len - i)
          (cfg.TIME_OFFSET + cfg.TIME_QUANTIZATION - 1) := by
  intro fuel
  induction fuel with
  | zero =>
    intro i current S h hcur
    have h1 : ¬ i < seq_len := by omega
    rw [genLoop]
    simp [h1]
    omega
  | succ n ih =>
    intro i current S h hcur
    rw [genLoop]
    by_cases hi : i < seq_len
    · simp only [if_pos hi, if_pos hcur]
      rw [ih (i+1) (current+1) S (by omega) (by omega)]
      rw [show seq_len - i = (seq_len - (i+1)) + 1 by omega]
      rw [List.replicate_succ]
    · simp [hi]
      omega

theorem noOrphanOffs_genLoop_fuel (cfg : Config) (sequence : List ℕ)
    (seq_len : ℕ) (hTQ : 1 ≤ cfg.TIME_QUANTIZATION) :
    ∀ fuel i current S, sequence.length - current + (seq_len - i) ≤ fuel →
      noOrphanOffs cfg (genLoop cfg sequence seq_len i current S) S = true := by
  intro fuel
  induction fuel with
  | zero =>
    intro i current S h
    have h1 : ¬ i < seq_len := by omega
    rw [genLoop]
    simp [h1, noOrphanOffs]
  | succ n ih =>
    intro i current S h
    rw [genLoop]
    by_cases hi : i < seq_len
    · simp only [if_pos hi]
      by_cases hc : sequence.length ≤ current
      · simp only [if_pos hc]
        rw [noOrphanOffs]
        have hA : ¬(cfg.NOTE_OFF_OFFSET ≤ cfg.TIME_OFFSET + cfg.TIME_QUANTIZATION - 1 ∧
            cfg.TIME_OFFSET + cfg.TIME_QUANTIZATION - 1 <
              cfg.NOTE_OFF_OFFSET + cfg.NUM_NOTES) := by
          simp only [Config.NOTE_OFF_OFFSET, Config.TIME_OFFSET, Config.NOTE_ON_OFFSET]
          omega
        have hB : ¬(cfg.TIME_OFFSET + cfg.TIME_QUANTIZATION - 1 <
            cfg.NOTE_OFF_OFFSET) := by
          simp only [Config.NOTE_OFF_OFFSET, Config.TIME_OFFSET, Config.NOTE_ON_OFFSET]
          omega
        rw [if_neg hA, if_neg hB]
        exact ih (i+1) (current+1) S (by omega)
      · simp only [if_neg hc]
        by_cases he1 : sequence.getD current 0 < cfg.NOTE_OFF_OFFSET + cfg.NUM_NOTES
        · simp only [if_pos he1]
          by_cases he2 : cfg.NOTE_OFF_OFFSET ≤ sequence.getD current 0
          · simp only [if_pos he2]
            by_cases he3 : sequence.getD current 0 - cfg.NOTE_OFF_OFFSET ∈ S
            · simp only [if_pos he3]
              rw [noOrphanOffs, if_pos ⟨he2, he1⟩]
              rw [Bool.and_eq_true, decide_eq_true_eq]
              exact ⟨he3, ih (i+1) (current+1) _ (by omega)⟩
            · simp only [if_neg he3]
              exact ih i (current+1) S (by omega)
          · simp only [if_neg he2]
            rw [noOrphanOffs]
            have hA : ¬(cfg.NOTE_OFF_OFFSET ≤ sequence.getD current 0 ∧
                sequence.getD current 0 < cfg.NOTE_OFF_OFFSET + cfg.NUM_NOTES) := by
              exact fun hcon => he2 hcon.1
            have hB : sequence.getD current 0 < cfg.NOTE_OFF_OFFSET := by omega
            rw [if_neg hA, if_pos hB]
            exact ih (i+1) (current+1) _ (by omega)
        · simp only [if_neg he1]
          rw [noOrphanOffs]
          have hA : ¬(cfg.NOTE_OFF_OFFSET ≤ sequence.getD current 0 ∧
              sequence.getD current 0 < cfg.NOTE_OFF_OFFSET + cfg.NUM_NOTES) := by
            exact fun hcon => he1 hcon.2
          have hB : ¬(sequence.getD current 0 < cfg.NOTE_OFF_OFFSET) := by omega
          rw [if_neg hA, if_neg hB]
          exact ih (i+1) (current+1) S (by omega)
    · simp [hi, noOrphanOffs]

theorem genLoopSteps_le_fuel (cfg : Config) (sequence : List ℕ) (seq_len : ℕ) :
    ∀ fuel i current S, sequence.length - current + (seq_len - i) ≤ fuel →
      genLoopSteps cfg sequence seq_len i current S ≤
        sequence.length - current + (seq_len - i) := by
  intro fuel
  induction fuel with
  | zero =>
    intro i current S h
    have h1 : ¬ i < seq_len := by omega
    rw [genLoopSteps]
    simp [h1]
  | succ n ih =>
    intro i current S h
    rw [genLoopSteps]
    by_cases hi : i < seq_len
    · simp only [if_pos hi]
      by_cases hc : sequence.length ≤ current
      · simp only [if_pos hc]
        have := ih (i+1) (current+1) S (by omega)
        omega
      · simp only [if_neg hc]
        by_cases he1 : sequence.getD current 0 < cfg.NOTE_OFF_OFFSET + cfg.NUM_NOTES
        · simp only [if_pos he1]
          by_cases he2 : cfg.NOTE_OFF_OFFSET ≤ sequence.getD current 0
          · simp only [if_pos he2]
            by_cases he3 : sequence.getD current 0 - cfg.NOTE_OFF_OFFSET ∈ S
            · simp only [if_pos he3]
              have := ih (i+1) (current+1)
                (S.erase (sequence.getD current 0 - cfg.NOTE_OFF_OFFSET)) (by omega)
              omega
            · simp only [if_neg he3]
              have := ih i (current+1) S (by omega)
              omega
          · simp only [if_neg he2]
            have := ih (i+1) (current+1)
              (insert (sequence.getD current 0 - cfg.NOTE_ON_OFFSET) S) (by omega)
            omega
        · simp only [if_neg he1]
          have := ih (i+1) (current+1) S (by omega)
          omega
    · simp [hi]

/-- The Augmenter never changes the window's length. -/
theorem augment_length (cfg : Config) (t : ℤ) (s : List ℤ) :
    (augment cfg t s).length = s.length := by
  unfold augment
  split <;> simp

/-! ## The claims -/

/-- C1: With `CATEGORY_LEVEL = 2` and a composition of length 4 (an exact
multiple), the remainder assignment `progress[-(4 % 2):, 1] = 1` is
`progress[-0:] = progress[0:]`, the whole matrix, so rows 0 and 1 carry two
entries equal to 1 instead of exactly one. -/
theorem progress_tensor_exact_multiple_two_ones :
    progress_tensor 4 2 = [[1, 1], [1, 1], [0, 1], [0, 1]] ∧
    (progress_tensor 4 2).map (fun row => List.count 1 row) = [2, 2, 1, 1] := by
  decide

/-- C2: every window materialized by `random_subseq` decodes without orphan
NoteOffs: a NoteOff is only ever emitted for a note opened by a NoteOn
earlier in the same window and not yet closed. -/
theorem random_subseq_no_orphan_noteoffs (cfg : Config) (sequence : List ℕ)
    (seq_len index : ℕ) (hTQ : 1 ≤ cfg.TIME_QUANTIZATION) :
    noOrphanOffs cfg (random_subseq cfg sequence seq_len index).1 ∅ = true :=
  noOrphanOffs_genLoop_fuel cfg sequence seq_len hTQ _ 0 index ∅ le_rfl

theorem random_subseq_no_orphan_noteoffs_witness :
    1 ≤ (Config.mk 128 32).TIME_QUANTIZATION ∧
    noOrphanOffs (Config.mk 128 32)
      (random_subseq (Config.mk 128 32) [5, 258, 133, 7] 3 2).1 ∅ = true :=
  ⟨by decide, random_subseq_no_orphan_noteoffs (Config.mk 128 32) [5, 258, 133, 7] 3 2 (by decide)⟩

/-- C3: the window always holds exactly `seq_len` events, and once the
source cursor is exhausted every remaining slot is a maximum-silence
TimeShift pad, identically for every sounding-note set. -/
theorem random_subseq_length_and_padding (cfg : Config) (sequence : List ℕ)
    (seq_len index : ℕ) :
    (random_subseq cfg sequence seq_len index).1.length = seq_len ∧
    (∀ i current S, sequence.length ≤ current →
      genLoop cfg sequence seq_len i current S =
        List.replicate (seq_len - i)
          (cfg.TIME_OFFSET + cfg.TIME_QUANTIZATION - 1)) :=
  ⟨by simpa [random_subseq] using genLoop_length cfg sequence seq_len 0 index ∅,
   fun i current S h => genLoop_exhausted cfg sequence seq_len _ i current S le_rfl h⟩

theorem random_subseq_length_and_padding_witness :
    ((4 : ℕ) ≤ 4) ∧
    (random_subseq (Config.mk 128 32) [5, 258, 133, 7] 3 2).1.length = 3 ∧
    genLoop (Config.mk 128 32) [5, 258, 133, 7] 3 1 4 ∅ =
      List.replicate (3 - 1)
        ((Config.mk 128 32).TIME_OFFSET + (Config.mk 128 32).TIME_QUANTIZATION - 1) :=
  ⟨le_rfl,
   (random_subseq_length_and_padding (Config.mk 128 32) [5, 258, 133, 7] 3 2).1,
   (random_subseq_length_and_padding (Config.mk 128 32) [5, 258, 133, 7] 3 2).2 1 4 ∅
     (by decide)⟩

/-- C4 counterexample: for the length-2 sequence `[0, 1]` and `seq_len = 1`
the claimed start `len - L = 1` is not a possible `randint` draw (the code
draws from `[0, len - 1 - L] = [0, 0]`), and for `seq_len = len(seq)`
(sequence `[0]`, `seq_len = 1`) the `randint` range `[0, -1]` is empty, so
`random_subseq` raises instead of succeeding. -/
theorem random_subseq_start_range_counterexample :
    ¬ randint_possible randint_lo (random_subseq_hi [0, 1] 1) 1 ∧
    ¬ random_subseq_ok [0] 1 := by
  decide

/-- C4 amended: for `1 ≤ seq_len ≤ len(sequence) - 1`, `random_subseq`
succeeds, its start can be exactly the values in `[0, len - seq_len - 1]`,
and the returned index range is `[index, index + seq_len)`. -/
theorem random_subseq_start_range_amended (cfg : Config) (sequence : List ℕ)
    (seq_len : ℕ) (k : ℤ) (hL : 1 ≤ seq_len) (hlen : seq_len + 1 ≤ sequence.length) :
    random_subseq_ok sequence seq_len ∧
    (randint_possible randint_lo (random_subseq_hi sequence seq_len) k ↔
      0 ≤ k ∧ k ≤ (sequence.length : ℤ) - seq_len - 1) ∧
    (∀ index : ℕ, (random_subseq cfg sequence seq_len index).2.1 = index ∧
      (random_subseq cfg sequence seq_len index).2.2 = index + seq_len) := by
  refine ⟨?_, ?_, fun index => ⟨rfl, rfl⟩⟩
  · unfold random_subseq_ok randint_ok randint_lo random_subseq_hi
    omega
  · unfold randint_possible randint_lo random_subseq_hi
    constructor <;> intro h <;> omega

theorem random_subseq_start_range_amended_witness :
    (1 : ℕ) ≤ 1 ∧ (1 : ℕ) + 1 ≤ [0, 1, 2].length ∧
    (random_subseq_ok [0, 1, 2] 1 ∧
     (randint_possible randint_lo (random_subseq_hi [0, 1, 2] 1) 1 ↔
       0 ≤ (1 : ℤ) ∧ (1 : ℤ) ≤ (([0, 1, 2] : List ℕ).length : ℤ) - 1 - 1) ∧
     (∀ index : ℕ,
       (random_subseq (Config.mk 128 32) [0, 1, 2] 1 index).2.1 = index ∧
       (random_subseq (Config.mk 128 32) [0, 1, 2] 1 index).2.2 = index + 1)) :=
  ⟨le_rfl, by decide,
   random_subseq_start_range_amended (Config.mk 128 32) [0, 1, 2] 1 1 le_rfl (by decide)⟩

/-- C5 counterexample: with one sequence and fraction 0, `num_val = 0`, so
`val = r[-0:]` is the whole list and the assertion
`len(val_indicies) == num_val` fails (`AssertionError`): no split is
produced at all. -/
theorem validation_split_fraction_zero_counterexample :
    validation_split [0] 0 = none := by
  simp [validation_split, sliceFromNeg, sliceUptoNeg]

/-- C5 amended: whenever `1 ≤ ceil(M * f) ≤ M` (in particular for any
fraction `0 < f ≤ 1` on a non-empty corpus) or `M = 0`, `validation_split`
returns index lists with `|val| = ceil(M * f)`, `|train| = M - |val|`, and
`train ++ val` a permutation of `[0, M)`: the two sets are disjoint and
cover every index exactly once. -/
theorem validation_split_partition_amended (r : List ℕ) (f : ℚ)
    (hperm : r.Perm (List.range r.length))
    (hij : (1 ≤ ⌈(r.length : ℚ) * f⌉ ∧ ⌈(r.length : ℚ) * f⌉ ≤ (r.length : ℤ)) ∨
      r.length = 0) :
    ∃ train val, validation_split r f = some (train, val) ∧
      val.length = (⌈(r.length : ℚ) * f⌉).toNat ∧
      train.length = r.length - (⌈(r.length : ℚ) * f⌉).toNat ∧
      (train ++ val).Perm (List.range r.length) := by
  rcases hij with ⟨h1, h2⟩ | h0
  · have hk0 : ¬ (⌈(r.length : ℚ) * f⌉).toNat = 0 := by omega
    have hle : (⌈(r.length : ℚ) * f⌉).toNat ≤ r.length := by omega
    have hval : (sliceFromNeg r (⌈(r.length : ℚ) * f⌉).toNat).length =
        (⌈(r.length : ℚ) * f⌉).toNat := by
      simp only [sliceFromNeg, if_neg hk0, List.length_drop]
      omega
    have htrain : (sliceUptoNeg r (⌈(r.length : ℚ) * f⌉).toNat).length =
        r.length - (⌈(r.length : ℚ) * f⌉).toNat := by
      simp only [sliceUptoNeg, if_neg hk0, List.length_take]
      omega
    refine ⟨_, _, ?_, hval, htrain, ?_⟩
    · unfold validation_split
      rw [if_pos ⟨hval, htrain⟩]
    · have happ : sliceUptoNeg r (⌈(r.length : ℚ) * f⌉).toNat ++
          sliceFromNeg r (⌈(r.length : ℚ) * f⌉).toNat = r := by
        simp only [sliceUptoNeg, sliceFromNeg, if_neg hk0]
        exact List.take_append_drop _ r
      rw [happ]
      exact hperm
  · have hr : r = [] := List.length_eq_zero.mp h0
    subst hr
    refine ⟨[], [], ?_, ?_, ?_, ?_⟩ <;>
      simp [validation_split, sliceFromNeg, sliceUptoNeg]

theorem validation_split_partition_amended_witness :
    ([1, 0] : List ℕ).Perm (List.range ([1, 0] : List ℕ).length) ∧
    (∃ train val, validation_split [1, 0] (1/2) = some (train, val) ∧
      val.length = (⌈(([1, 0] : List ℕ).length : ℚ) * (1/2)⌉).toNat ∧
      train.length = ([1, 0] : List ℕ).length -
        (⌈(([1, 0] : List ℕ).length : ℚ) * (1/2)⌉).toNat ∧
      (train ++ val).Perm (List.range ([1, 0] : List ℕ).length)) :=
  ⟨by decide,
   validation_split_partition_amended [1, 0] (1/2) (by decide)
     (Or.inl (by norm_num))⟩

/-- C6 counterexample: with one sequence and fraction 1, `num_val = 1 = M`,
so the training side is empty, yet `validation_split` succeeds and returns
the empty training list: no `InsufficientDataError` (nor any error) is
raised. -/
theorem validation_split_empty_train_counterexample :
    validation_split [0] 1 = some ([], [0]) := by
  simp [validation_split, sliceFromNeg, sliceUptoNeg]

/-- C6 amended: `validation_split` itself never raises
`InsufficientDataError`; when `ceil(M * f) = M` with `M ≥ 1` it silently
returns an empty training set together with the whole shuffled list as the
validation set (an empty split only surfaces later, at `sampler`
construction). -/
theorem validation_split_empty_train_no_error (r : List ℕ) (f : ℚ)
    (h1 : 1 ≤ r.length) (h2 : ⌈(r.length : ℚ) * f⌉ = (r.length : ℤ)) :
    validation_split r f = some ([], r) := by
  have hnv : (⌈(r.length : ℚ) * f⌉).toNat = r.length := by omega
  have h0 : ¬ r.length = 0 := by omega
  simp only [validation_split, sliceFromNeg, sliceUptoNeg, hnv, if_neg h0]
  simp

theorem validation_split_empty_train_no_error_witness :
    1 ≤ ([0] : List ℕ).length ∧
    ⌈(([0] : List ℕ).length : ℚ) * 1⌉ = (([0] : List ℕ).length : ℤ) ∧
    validation_split [0] 1 = some ([], [0]) :=
  ⟨le_rfl, by norm_num,
   validation_split_empty_train_no_error [0] 1 le_rfl (by norm_num)⟩

/-- Claim C7 counterexample: on a corpus with one composition, stacking the
4 per-sample style-tag slices (each of shape `[1]`) yields the rank-2
tensor `[[0], [0], [0], [0]]` of shape `[4, 1]`, not a one-dimensional
array of shape `[4]`. -/
theorem batcher_tag_shape_counterexample :
    (batch (Config.mk 2 2)
        (Corpus.mk [[0, 4, 2]] [0] [[[1, 0], [1, 0], [0, 1]]]) 2
        (List.replicate 4 ((0 : ℕ), (0 : ℕ), (0 : ℤ)))).2.1 =
      [[0], [0], [0], [0]] ∧
    tensorShape2 ((batch (Config.mk 2 2)
        (Corpus.mk [[0, 4, 2]] [0] [[[1, 0], [1, 0], [0, 1]]]) 2
        (List.replicate 4 ((0 : ℕ), (0 : ℕ), (0 : ℤ)))).2.1) = [4, 1] ∧
    ([4, 1] : List ℕ) ≠ [4] := by
  refine ⟨by decide, by decide, by decide⟩

/-- Claim C7 amended: the Batch Assembler returns events of shape
`[B, seq_len]`, style tags of shape `[B, 1]` (one length-1 slice per
sample, stacked), and progress of shape `[B, seq_len, C]`. -/
theorem batcher_shapes_amended (cfg : Config) (data : Corpus) (seq_len : ℕ)
    (draws : List (ℕ × ℕ × ℤ)) (B C : ℕ)
    (hB : draws.length = B)
    (htags : ∀ d ∈ draws, d.1 < data.tags.length)
    (hprog : ∀ d ∈ draws, d.2.1 + seq_len ≤ (data.progresses.getD d.1 []).length)
    (hC : ∀ d ∈ draws, ∀ row ∈ data.progresses.getD d.1 [], row.length = C) :
    ((batch cfg data seq_len draws).1.length = B ∧
      ∀ e ∈ (batch cfg data seq_len draws).1, e.length = seq_len) ∧
    ((batch cfg data seq_len draws).2.1.length = B ∧
      ∀ tg ∈ (batch cfg data seq_len draws).2.1, tg.length = 1) ∧
    ((batch cfg data seq_len draws).2.2.length = B ∧
      ∀ p ∈ (batch cfg data seq_len draws).2.2, p.length = seq_len ∧
        ∀ row ∈ p, row.length = C) := by
  refine ⟨⟨?_, ?_⟩, ⟨?_, ?_⟩, ⟨?_, ?_⟩⟩
  · simp [batch, hB]
  · intro e he
    simp only [batch, List.map_map, List.mem_map] at he
    obtain ⟨d, hd, rfl⟩ := he
    simp only [Function.comp_apply, sample, random_subseq, augment_length,
      List.length_map]
    simpa using genLoop_length cfg (data.seqs.getD d.1 []) seq_len 0 d.2.1 ∅
  · simp [batch, hB]
  · intro tg htg
    simp only [batch, List.map_map, List.mem_map] at htg
    obtain ⟨d, hd, rfl⟩ := htg
    have := htags d hd
    simp only [Function.comp_apply, sample, List.length_take, List.length_drop]
    omega
  · simp [batch, hB]
  · intro p hp
    simp only [batch, List.map_map, List.mem_map] at hp
    obtain ⟨d, hd, rfl⟩ := hp
    have h1 := hprog d hd
    constructor
    · simp only [Function.comp_apply, sample, random_subseq, List.length_take,
        List.length_drop]
      omega
    · intro row hrow
      apply hC d hd
      simp only [Function.comp_apply, sample, random_subseq] at hrow
      exact List.mem_of_mem_drop (List.mem_of_mem_take hrow)

theorem batcher_shapes_amended_witness :
    ((List.replicate 2 ((0 : ℕ), (0 : ℕ), (0 : ℤ))).length = 2) ∧
    ((batch (Config.mk 2 2)
        (Corpus.mk [[0, 4, 2]] [0] [[[1, 0], [1, 0], [0, 1]]]) 2
        (List.replicate 2 ((0 : ℕ), (0 : ℕ), (0 : ℤ)))).1.length = 2 ∧
      ∀ e ∈ (batch (Config.mk 2 2)
        (Corpus.mk [[0, 4, 2]] [0] [[[1, 0], [1, 0], [0, 1]]]) 2
        (List.replicate 2 ((0 : ℕ), (0 : ℕ), (0 : ℤ)))).1, e.length = 2) ∧
    ((batch (Config.mk 2 2)
        (Corpus.mk [[0, 4, 2]] [0] [[[1, 0], [1, 0], [0, 1]]]) 2
        (List.replicate 2 ((0 : ℕ), (0 : ℕ), (0 : ℤ)))).2.1.length = 2 ∧
      ∀ tg ∈ (batch (Config.mk 2 2)
        (Corpus.mk [[0, 4, 2]] [0] [[[1, 0], [1, 0], [0, 1]]]) 2
        (List.replicate 2 ((0 : ℕ), (0 : ℕ), (0 : ℤ)))).2.1, tg.length = 1) ∧
    ((batch (Config.mk 2 2)
        (Corpus.mk [[0, 4, 2]] [0] [[[1, 0], [1, 0], [0, 1]]]) 2
        (List.replicate 2 ((0 : ℕ), (0 : ℕ), (0 : ℤ)))).2.2.length = 2 ∧
      ∀ p ∈ (batch (Config.mk 2 2)
        (Corpus.mk [[0, 4, 2]] [0] [[[1, 0], [1, 0], [0, 1]]]) 2
        (List.replicate 2 ((0 : ℕ), (0 : ℕ), (0 : ℤ)))).2.2, p.length = 2 ∧
        ∀ row ∈ p, row.length = 2) :=
  ⟨rfl,
   batcher_shapes_amended (Config.mk 2 2)
     (Corpus.mk [[0, 4, 2]] [0] [[[1, 0], [1, 0], [0, 1]]]) 2
     (List.replicate 2 ((0 : ℕ), (0 : ℕ), (0 : ℤ))) 2 2 rfl
     (by decide) (by decide) (by decide)⟩

/-- Claim C8: the Augmenter applies one drawn transposition `t ∈ [-4, 4]` to
the whole window: every pitch-bearing event code (below `TIME_OFFSET`,
i.e. NoteOn or NoteOff, whose note number is code minus its range offset)
is shifted by exactly `t`, every TimeShift event is bit-identical, and for
`t = 0` the window is returned unmodified. -/
theorem augment_transposition (cfg : Config) (transpose : ℤ) (window : List ℤ)
    (ht : randint_possible (-4) 4 transpose) :
    ((augment cfg transpose window).length = window.length) ∧
    (∀ (k : ℕ) (evt : ℤ), window[k]? = some evt →
      (evt < (cfg.TIME_OFFSET : ℤ) →
        (augment cfg transpose window)[k]? = some (evt + transpose)) ∧
      ((cfg.TIME_OFFSET : ℤ) ≤ evt →
        (augment cfg transpose window)[k]? = some evt)) ∧
    (transpose = 0 → augment cfg transpose window = window) := by
  by_cases h0 : transpose = 0
  · subst h0
    refine ⟨rfl, ?_, fun _ => rfl⟩
    · intro k evt hk
      unfold augment
      simp only [if_pos rfl]
      exact ⟨fun _ => by simpa using hk, fun _ => hk⟩
  · refine ⟨?_, ?_, fun h => absurd h h0⟩
    · unfold augment
      simp [h0]
    · intro k evt hk
      unfold augment
      simp only [if_neg h0, List.getElem?_map, hk]
      constructor
      · intro hlt
        simp [hlt]
      · intro hge
        simp [not_lt.mpr hge]

theorem augment_transposition_witness :
    randint_possible (-4) 4 2 ∧
    (((augment (Config.mk 128 32) 2 [5, 258]).length = ([5, 258] : List ℤ).length) ∧
    (∀ (k : ℕ) (evt : ℤ), ([5, 258] : List ℤ)[k]? = some evt →
      (evt < ((Config.mk 128 32).TIME_OFFSET : ℤ) →
        (augment (Config.mk 128 32) 2 [5, 258])[k]? = some (evt + 2)) ∧
      (((Config.mk 128 32).TIME_OFFSET : ℤ) ≤ evt →
        (augment (Config.mk 128 32) 2 [5, 258])[k]? = some evt)) ∧
    ((2 : ℤ) = 0 → augment (Config.mk 128 32) 2 [5, 258] = [5, 258])) :=
  ⟨by decide, augment_transposition (Config.mk 128 32) 2 [5, 258] (by decide)⟩

/-- Claim C9: constructing the sampler over an empty split fails immediately
(the source's `raise 'Insufficient training data.'`) before any sample is
drawn; over a non-empty split it returns the sampling closure and raises no
such error. -/
theorem sampler_empty_split_error (cfg : Config) (data : Corpus) :
    (data.seqs.length = 0 →
      sampler cfg data = Except.error "Insufficient training data.") ∧
    (0 < data.seqs.length → ∃ f, sampler cfg data = Except.ok f) := by
  constructor
  · intro h
    unfold sampler
    rw [if_pos h]
  · intro h
    unfold sampler
    rw [if_neg (by omega)]
    exact ⟨_, rfl⟩

theorem sampler_empty_split_error_witness :
    sampler (Config.mk 128 32) (Corpus.mk [] [] []) =
      Except.error "Insufficient training data." ∧
    ∃ f, sampler (Config.mk 128 32) (Corpus.mk [[0]] [0] [[[1]]]) =
      Except.ok f :=
  ⟨(sampler_empty_split_error (Config.mk 128 32) (Corpus.mk [] [] [])).1 rfl,
   (sampler_empty_split_error (Config.mk 128 32)
     (Corpus.mk [[0]] [0] [[[1]]])).2 (by decide)⟩

/-- Claim C10: the window generator terminates: from any start it runs at
most `len(sequence) + seq_len` loop iterations (the source cursor strictly
increases every iteration, whether an event is emitted, skipped or padded)
and yields exactly `seq_len` events. -/
theorem random_subseq_generator_terminates (cfg : Config) (sequence : List ℕ)
    (seq_len index : ℕ) :
    genLoopSteps cfg sequence seq_len 0 index ∅ ≤ sequence.length + seq_len ∧
    (random_subseq cfg sequence seq_len index).1.length = seq_len := by
  constructor
  · have := genLoopSteps_le_fuel cfg sequence seq_len
      (sequence.length - index + (seq_len - 0)) 0 index ∅ le_rfl
    omega
  · simpa [random_subseq] using genLoop_length cfg sequence seq_len 0 index ∅

end DeepJ
